import Mathlib

/-!
# UrlDebloater — shallow embedding of the URL-washing core

This file embeds the core of the UrlDebloater repository
(`urlwasher/src/lib.rs` and `urlwasher/src/text_washer.rs`) as executable
Lean definitions and proves properties of the embedding.

Modelling decisions:
* A `Url` is modelled structurally: scheme, optional domain (the Rust
  `Url::domain()` view of the host), optional path-segment list
  (`Url::path_segments()` returns `None` for cannot-be-a-base URLs), the
  query as an optional list of decoded key/value pairs (the
  `Url::query_pairs()` view), and an optional fragment.
* Network I/O (`reqwest`) is modelled by a transport oracle
  `HttpTransport : Url → Option HttpGetResult`, where `none` is a transport
  error; URL-string parsing (`Url::parse`) is an abstract parameter
  `UrlParseFn : String → Option Url`.
* `lru::LruCache` is modelled as a capacity plus an entry list kept in
  most-recently-used-first order; `get` promotes a hit to the front and
  `put` inserts at the front, evicting the last (least recently used)
  entry when the cache is full and the key is new.
* The async/mutex structure of `UrlWasher::wash` collapses to explicit
  state passing: `wash` returns the result, the updated washer, and the
  list of network GET requests it issued.  In `TextWasher::wash` the
  per-token futures are awaited sequentially in index order (the Rust code
  awaits the collected futures one by one), so the washer state is
  threaded through the tokens left to right.
-/

/-- Structural model of `url::Url` as the washing code observes it. -/
structure Url where
  scheme : String
  domain : Option String
  pathSegments : Option (List String)
  query : Option (List (String × String))
  fragment : Option String
deriving DecidableEq, Repr

/-- Serialization of a model `Url` (used for the `url` query parameter sent
to the mixer and for substituting a washed URL back into text). -/
def Url.toString (u : Url) : String :=
  u.scheme ++ "://" ++ u.domain.getD "" ++
    (match u.pathSegments with
      | none => ""
      | some segs => "/" ++ String.intercalate "/" segs) ++
    (match u.query with
      | none => ""
      | some q => "?" ++ String.intercalate "&" (q.map fun kv => kv.1 ++ "=" ++ kv.2)) ++
    (match u.fragment with
      | none => ""
      | some f => "#" ++ f)

abbrev RuleName := String

/-- `enum WashingProgram` from `urlwasher/src/lib.rs`. -/
inductive WashingProgram where
  | ResolveRedirection
  | RemoveSomeParams (params : List String)
  | RemoveAllParams
deriving DecidableEq, Repr

/-- `WashingProgram::remove_some_params`. -/
def WashingProgram.remove_some_params (values : List String) : WashingProgram :=
  .RemoveSomeParams values

/-- `struct DirtyUrlRule` from `urlwasher/src/lib.rs`. -/
structure DirtyUrlRule where
  name : String
  domains : List String
  path_pattern : List (Option String)
  washing_programs : List WashingProgram
deriving DecidableEq, Repr

/-- `DirtyUrlRule::matches_domain`. -/
def DirtyUrlRule.matches_domain (r : DirtyUrlRule) (domain : String) : Bool :=
  r.domains.any fun dirty_domain => dirty_domain == domain

/-- `DirtyUrlRule::matches_path`: an empty pattern always matches; otherwise
the URL must expose path segments and every zipped (segment, template) pair
must agree wherever the template is non-wildcard.  Note that `zip` stops at
the shorter of the two lists, exactly as Rust's `Iterator::zip` does. -/
def DirtyUrlRule.matches_path (r : DirtyUrlRule) (url : Url) : Bool :=
  if r.path_pattern.isEmpty then
    true
  else
    match url.pathSegments with
    | none => false
    | some segments =>
      (segments.zip r.path_pattern).all fun at_ =>
        match at_.2 with
        | some template => at_.1 == template
        | none => true

/-- `rule_set()` from `urlwasher/src/lib.rs`: the five built-in rules, in
declaration order. -/
def rule_set : List DirtyUrlRule :=
  [ { name := "youtu.be"
      domains := ["youtu.be"]
      path_pattern := []
      washing_programs := [WashingProgram.remove_some_params ["si"]] },
    { name := "youtube.com & music.youtube.com"
      domains := ["youtube.com", "www.youtube.com", "music.youtube.com"]
      path_pattern := []
      washing_programs := [WashingProgram.remove_some_params ["si"]] },
    { name := "twitter.com"
      domains := ["twitter.com", "x.com"]
      path_pattern := []
      washing_programs := [WashingProgram.RemoveAllParams] },
    { name := "vm.tiktok.com"
      domains := ["vm.tiktok.com"]
      path_pattern := []
      washing_programs := [WashingProgram.ResolveRedirection,
                           WashingProgram.RemoveAllParams] },
    { name := "on.soundcloud.com"
      domains := ["on.soundcloud.com"]
      path_pattern := []
      washing_programs := [WashingProgram.ResolveRedirection,
                           WashingProgram.RemoveAllParams] } ]

/-- `enum RedirectWashPolicy`. -/
inductive RedirectWashPolicy where
  | Ignore
  | Locally
  | ViaMixer
deriving DecidableEq, Repr

/-- `HashMap<RuleName, RedirectWashPolicy>` modelled as an association
list with unique keys (later insertions replace earlier ones, as in
`HashMap::from_iter`). -/
def hashMapFromIter (l : List (RuleName × RedirectWashPolicy)) :
    List (RuleName × RedirectWashPolicy) :=
  l.foldl (fun acc kv => acc.filter (fun e => !(e.1 == kv.1)) ++ [kv]) []

/-- `HashMap::get` on the association-list model. -/
def mapGet (m : List (RuleName × RedirectWashPolicy)) (k : RuleName) :
    Option RedirectWashPolicy :=
  (m.find? fun e => e.1 == k).map (·.2)

/-- `struct UrlWasherConfig`. -/
structure UrlWasherConfig where
  mixer_instance : Option Url
  redirect_policy : List (RuleName × RedirectWashPolicy)
deriving DecidableEq, Repr

/-- `impl Default for UrlWasherConfig`: the redirect-policy map is keyed by
the *domains* of every rule whose programs contain `ResolveRedirection`,
each mapped to `Locally`. -/
def UrlWasherConfig.default : UrlWasherConfig :=
  { mixer_instance := none
    redirect_policy :=
      hashMapFromIter <|
        (rule_set.filter fun rule =>
            rule.washing_programs.contains WashingProgram.ResolveRedirection).flatMap
          fun rule => rule.domains.map fun domain => (domain, RedirectWashPolicy.Locally) }

/-- `remove_query_params` from `urlwasher/src/lib.rs`: clear the query,
re-append every original pair whose key is not listed in `params`, and drop
a resulting empty query entirely. -/
def remove_query_params (url : Url) (params : List String) : Url :=
  { url with query :=
      if ((url.query.getD []).filter fun kv => params.all fun param => param != kv.1).isEmpty
      then none
      else some ((url.query.getD []).filter fun kv => params.all fun param => param != kv.1) }

/-- Result of one `reqwest` GET, as `resolve_redirect` observes it: the
status-success flag, the `Location` header (when present and readable as a
string), and the response body. -/
structure HttpGetResult where
  statusSuccess : Bool
  location : Option String
  body : String
deriving DecidableEq, Repr

/-- The HTTP transport oracle; `none` models a transport (send) error. -/
abbrev HttpTransport := Url → Option HttpGetResult

/-- Abstract model of `Url::parse`. -/
abbrev UrlParseFn := String → Option Url

/-- The failure cases of `resolve_redirect` (in the source these are
`anyhow` errors with the matching context strings). -/
inductive ResolveError where
  | transport
  | missingLocation
  | parseLocation
  | mixerNotConfigured
  | mixerTransport
  | mixerBadStatus
  | mixerBodyParse
deriving DecidableEq, Repr

/-- The `Result<Url, Url>` success payload of `resolve_redirect`:
`resolved` is Rust's `Ok(url)`, `unresolved` is Rust's `Err(url)` (the
original URL, deliberately left unresolved). -/
inductive ResolveOutcome where
  | resolved (url : Url)
  | unresolved (url : Url)
deriving DecidableEq, Repr

/-- The URL carried by either outcome (`Ok(Ok(url)) | Ok(Err(url)) => url`
in `UrlWasher::wash`). -/
def ResolveOutcome.url : ResolveOutcome → Url
  | .resolved u => u
  | .unresolved u => u

/-- The URL `resolve_redirect` GETs under `ViaMixer`: the mixer instance
with its path set to `wash` and the serialized input URL appended as the
`url` query parameter. -/
def mixer_wash_url (mixer url : Url) : Url :=
  { mixer with
    pathSegments := some ["wash"]
    query := some (mixer.query.getD [] ++ [("url", url.toString)]) }

/-- `resolve_redirect` from `urlwasher/src/lib.rs`.  Returns the outcome
(or error) together with the list of network GET requests issued. -/
def resolve_redirect (env : HttpTransport) (parse : UrlParseFn) (url : Url)
    (policy : RedirectWashPolicy) (mixer_instance : Option Url) :
    Except ResolveError ResolveOutcome × List Url :=
  match policy with
  | .Ignore => (.ok (.unresolved url), [])
  | .Locally =>
    match env url with
    | none => (.error .transport, [url])
    | some resp =>
      match resp.location with
      | none => (.error .missingLocation, [url])
      | some loc =>
        match parse loc with
        | none => (.error .parseLocation, [url])
        | some target => (.ok (.resolved target), [url])
  | .ViaMixer =>
    match mixer_instance with
    | none => (.error .mixerNotConfigured, [])
    | some mixer =>
      let wash_url := mixer_wash_url mixer url
      match env wash_url with
      | none => (.error .mixerTransport, [wash_url])
      | some resp =>
        if !resp.statusSuccess then
          (.error .mixerBadStatus, [wash_url])
        else
          match parse resp.body with
          | none => (.error .mixerBodyParse, [wash_url])
          | some target => (.ok (.resolved target), [wash_url])

/-- Model of `lru::LruCache`: bounded capacity, entries kept
most-recently-used first. -/
structure LruCache (α β : Type) where
  capacity : Nat
  entries : List (α × β)
deriving DecidableEq, Repr

/-- `LruCache::get`: a hit is promoted to the most-recently-used position;
a miss leaves the cache untouched. -/
def LruCache.get [BEq α] (c : LruCache α β) (k : α) : Option β × LruCache α β :=
  match c.entries.find? (fun e => e.1 == k) with
  | none => (none, c)
  | some e => (some e.2, { c with entries := e :: c.entries.eraseP (fun x => x.1 == k) })

/-- `LruCache::put`: insert at the most-recently-used position, replacing
any entry with the same key; when the cache is full and the key is new the
least-recently-used (last) entry is evicted. -/
def LruCache.put [BEq α] (c : LruCache α β) (k : α) (v : β) : LruCache α β :=
  { c with
    entries := (k, v) ::
      (if c.capacity ≤ (c.entries.filter fun e => !(e.1 == k)).length
       then (c.entries.filter fun e => !(e.1 == k)).dropLast
       else c.entries.filter fun e => !(e.1 == k)) }

/-- `struct UrlWasher` (the `reqwest::Client` is replaced by the
`HttpTransport` oracle passed to `wash`). -/
structure UrlWasher where
  cache : LruCache Url Url
  config : UrlWasherConfig
deriving DecidableEq, Repr

/-- `UrlWasher::new`: fresh cache of capacity 1024. -/
def UrlWasher.new (config : UrlWasherConfig) : UrlWasher :=
  { cache := { capacity := 1024, entries := [] }, config }

/-- The `for washing_program in matching_rule.washing_programs` loop of
`UrlWasher::wash`: applies each program in order to the working URL,
aborting on the first resolver error; also accumulates the GET requests
issued. -/
def run_programs (env : HttpTransport) (parse : UrlParseFn)
    (cfg : UrlWasherConfig) (ruleName : RuleName) :
    List WashingProgram → Url → Except ResolveError Url × List Url
  | [], laundry => (.ok laundry, [])
  | p :: ps, laundry =>
    match p with
    | .ResolveRedirection =>
      let policy := (mapGet cfg.redirect_policy ruleName).getD RedirectWashPolicy.Ignore
      match resolve_redirect env parse laundry policy cfg.mixer_instance with
      | (.ok outcome, calls) =>
        let rec_ := run_programs env parse cfg ruleName ps outcome.url
        (rec_.1, calls ++ rec_.2)
      | (.error e, calls) => (.error e, calls)
    | .RemoveSomeParams params =>
      run_programs env parse cfg ruleName ps (remove_query_params laundry params)
    | .RemoveAllParams =>
      run_programs env parse cfg ruleName ps { laundry with query := none }

/-- `UrlWasher::wash`: scheme gate, cache lookup, domain extraction, rule
lookup (first match in declaration order), program execution, and caching
of the result.  Returns the washed result (or error), the updated washer,
and the list of network GET requests issued. -/
def UrlWasher.wash (env : HttpTransport) (parse : UrlParseFn)
    (w : UrlWasher) (url : Url) :
    Except ResolveError (Option Url) × UrlWasher × List Url :=
  if url.scheme ≠ "http" ∧ url.scheme ≠ "https" then
    (.ok none, w, [])
  else
    match w.cache.get url with
    | (some cached, cache') => (.ok (some cached), { w with cache := cache' }, [])
    | (none, _) =>
      match url.domain with
      | none => (.ok none, w, [])
      | some domain =>
        match rule_set.find? (fun rule => rule.matches_domain domain && rule.matches_path url) with
        | none => (.ok none, w, [])
        | some matching_rule =>
          match run_programs env parse w.config matching_rule.name
              matching_rule.washing_programs url with
          | (.ok laundry, calls) =>
            (.ok (some laundry), { w with cache := w.cache.put url laundry }, calls)
          | (.error e, calls) => (.error e, w, calls)

/-- The splitting pass of `TextWasher::wash`: Rust's
`str::split(char::is_whitespace)` with the separator characters recorded in
order.  Returns the first token, the remaining tokens, and the separators
(one fewer token than `tokens + 1`, i.e. `(tok :: toks).length =
seps.length + 1`). -/
def splitText : List Char → List Char × List (List Char) × List Char
  | [] => ([], [], [])
  | c :: rest =>
    if c.isWhitespace then
      ([], (splitText rest).1 :: (splitText rest).2.1, c :: (splitText rest).2.2)
    else
      (c :: (splitText rest).1, (splitText rest).2.1, (splitText rest).2.2)

/-- The reassembly loop of `TextWasher::wash`: after each token, the
recorded separator at the same index is pushed back (when one exists). -/
def reassemble : List (List Char) → List Char → List Char
  | [], _ => []
  | t :: ts, [] => t ++ reassemble ts []
  | t :: ts, s :: ss => t ++ s :: reassemble ts ss

/-- The per-token closure of `TextWasher::wash`: tokens that do not start
with `http://` or `https://`, or do not parse as a URL, pass through
unchanged; otherwise the washed URL replaces the token on success, and the
token is kept on "no match" or on error. -/
def washToken (env : HttpTransport) (parse : UrlParseFn)
    (w : UrlWasher) (part : List Char) : List Char × UrlWasher :=
  if !("http://".data.isPrefixOf part) && !("https://".data.isPrefixOf part) then
    (part, w)
  else
    match parse (String.mk part) with
    | none => (part, w)
    | some url =>
      match UrlWasher.wash env parse w url with
      | (.ok (some clean_url), w', _) => (clean_url.toString.data, w')
      | (.ok none, w', _) => (part, w')
      | (.error _, w', _) => (part, w')

/-- Washing every token in order, threading the washer state (the futures
are awaited sequentially in index order). -/
def washTokens (env : HttpTransport) (parse : UrlParseFn) :
    UrlWasher → List (List Char) → List (List Char) × UrlWasher
  | w, [] => ([], w)
  | w, t :: ts =>
    ((washToken env parse w t).1 ::
        (washTokens env parse (washToken env parse w t).2 ts).1,
      (washTokens env parse (washToken env parse w t).2 ts).2)

/-- `struct TextWasher`. -/
structure TextWasher where
  url_washer : UrlWasher

/-- `TextWasher::wash`: split on whitespace recording separators, wash each
token, reassemble in original order with the original separators. -/
def TextWasher.wash (env : HttpTransport) (parse : UrlParseFn)
    (tw : TextWasher) (text : List Char) : List Char × TextWasher :=
  (reassemble
      (washTokens env parse tw.url_washer
        ((splitText text).1 :: (splitText text).2.1)).1
      (splitText text).2.2,
    { url_washer :=
        (washTokens env parse tw.url_washer
          ((splitText text).1 :: (splitText text).2.1)).2 })

/-! ### Sanity examples: the spec's literal end-to-end cases -/

/-- A transport oracle that never answers (no network available). -/
def noNet : HttpTransport := fun _ => none

/-- A parse oracle that recognises nothing. -/
def noParse : UrlParseFn := fun _ => none

example :
    (UrlWasher.wash noNet noParse (UrlWasher.new UrlWasherConfig.default)
        { scheme := "https", domain := some "youtu.be",
          pathSegments := some ["lSwnPoo9ZK0"],
          query := some [("si", "TrackingParamValue"), ("t", "65")],
          fragment := none }).1 =
      .ok (some { scheme := "https", domain := some "youtu.be",
                  pathSegments := some ["lSwnPoo9ZK0"],
                  query := some [("t", "65")], fragment := none }) := by
  rfl

example :
    (UrlWasher.wash noNet noParse (UrlWasher.new UrlWasherConfig.default)
        { scheme := "https", domain := some "x.com",
          pathSegments := some ["sekurak", "status", "1737942071431073818"],
          query := some [("s", "46"), ("t", "eLM_fuufufjf")],
          fragment := none }).1 =
      .ok (some { scheme := "https", domain := some "x.com",
                  pathSegments := some ["sekurak", "status", "1737942071431073818"],
                  query := none, fragment := none }) := by
  rfl

example :
    (UrlWasher.wash noNet noParse (UrlWasher.new UrlWasherConfig.default)
        { scheme := "https", domain := some "example.com",
          pathSegments := some ["unrelated"],
          query := some [("x", "1")], fragment := none }).1 = .ok none := by
  rfl

/-! ### Helper lemmas -/

/-- The zipped path check, characterised positionally: `zip` truncates at
the shorter list, so only positions present in *both* lists are
constrained. -/
theorem zip_all_matches (segs : List String) (pat : List (Option String)) :
    ((segs.zip pat).all fun at_ =>
        match at_.2 with
        | some template => at_.1 == template
        | none => true) = true ↔
      ∀ (i : Nat) (t s : String), pat[i]? = some (some t) → segs[i]? = some s → s = t := by
  induction segs generalizing pat with
  | nil => simp
  | cons sv ss ih =>
    cases pat with
    | nil => simp
    | cons p ps =>
      rw [List.zip_cons_cons, List.all_cons, Bool.and_eq_true, ih ps]
      constructor
      · rintro ⟨h0, hrec⟩ i t s hpat hseg
        cases i with
        | zero =>
          simp only [List.getElem?_cons_zero, Option.some.injEq] at hpat hseg
          subst hpat
          subst hseg
          simpa using h0
        | succ n =>
          exact hrec n t s (by simpa using hpat) (by simpa using hseg)
      · intro h
        constructor
        · cases p with
          | none => rfl
          | some t => simpa using h 0 t sv (by simp) (by simp)
        · exact fun i t s hp hs => h (i + 1) t s (by simpa using hp) (by simpa using hs)

/-- A `Bool`-to-`Prop` bridge for the query filter predicate of
`remove_query_params`. -/
theorem all_ne_eq_not_mem (k : String) (params : List String) :
    (params.all fun param => param != k) = decide (k ∉ params) := by
  rw [Bool.eq_iff_iff]
  simp only [List.all_eq_true, bne_iff_ne, decide_eq_true_eq]
  constructor
  · intro h hk
    exact h k hk rfl
  · intro h p hp hpk
    exact h (hpk ▸ hp)

/-! ### C1 — rule path matching -/

/-- A rule whose pattern has two required (non-wildcard) segments. -/
def shortPathRule : DirtyUrlRule :=
  { name := "r", domains := ["d"], path_pattern := [some "a", some "b"],
    washing_programs := [] }

/-- A URL whose path has only one segment. -/
def shortPathUrl : Url :=
  { scheme := "https", domain := some "d", pathSegments := some ["a"],
    query := none, fragment := none }

/-- C1 counterexample: a URL whose path has fewer segments (1) than the
pattern's required non-wildcard positions (2) still matches, because the
zip stops at the shorter list — contradicting the claim that such a URL
fails to match. -/
theorem C1_counterexample :
    shortPathRule.matches_path shortPathUrl = true ∧
      (shortPathUrl.pathSegments.getD []).length <
        (shortPathRule.path_pattern.filter fun t => t.isSome).length := by
  decide

/-- C1 (amended): for every rule with a non-empty `path_pattern` and every
URL, the rule matches the URL's path exactly when the URL exposes path
segments and every non-wildcard pattern element agrees with the path
segment at the same position *wherever both exist*: trailing path segments
beyond the pattern's length are unconstrained, and pattern positions beyond
the path's length are unconstrained as well (a path shorter than the
pattern's required segments still matches on its existing positions). -/
theorem C1_matches_path_positional (r : DirtyUrlRule) (u : Url) :
    r.matches_path u = true ↔
      (r.path_pattern = [] ∨
        ∃ segs, u.pathSegments = some segs ∧
          ∀ (i : Nat) (t s : String),
            r.path_pattern[i]? = some (some t) → segs[i]? = some s → s = t) := by
  unfold DirtyUrlRule.matches_path
  by_cases hemp : r.path_pattern = []
  · simp [hemp]
  · have hne : r.path_pattern.isEmpty = false := by
      cases hp : r.path_pattern with
      | nil => exact absurd hp hemp
      | cons a l => rfl
    simp only [hne, Bool.false_eq_true, if_false]
    cases hseg : u.pathSegments with
    | none => simp [hemp]
    | some segs =>
      rw [zip_all_matches]
      constructor
      · intro h
        exact Or.inr ⟨segs, rfl, h⟩
      · rintro (h | ⟨segs', heq, hall⟩)
        · exact absurd h hemp
        · cases heq
          exact hall

/-- C1 witness: the amended characterisation applied at a concrete rule and
URL, extracting the positional agreement from the computed match. -/
theorem C1_witness :
    shortPathRule.path_pattern = [] ∨
      ∃ segs, shortPathUrl.pathSegments = some segs ∧
        ∀ (i : Nat) (t s : String),
          shortPathRule.path_pattern[i]? = some (some t) → segs[i]? = some s → s = t :=
  (C1_matches_path_positional shortPathRule shortPathUrl).mp (by decide)

/-! ### C2 — remove_query_params -/

/-- C2: `remove_query_params` keeps exactly the pairs whose key is not in
the removal set, in their original order and multiplicity (the kept query
is literally the `filter` of the original), leaves every other URL
component unchanged, and drops the query component entirely exactly when no
pair remains. -/
theorem C2_remove_query_params_spec (u : Url) (params : List String) :
    ((remove_query_params u params).query.getD [] =
        (u.query.getD []).filter fun kv => decide (kv.1 ∉ params)) ∧
    ((remove_query_params u params).query = none ↔
        (u.query.getD []).filter (fun kv => decide (kv.1 ∉ params)) = []) ∧
    (remove_query_params u params).scheme = u.scheme ∧
    (remove_query_params u params).domain = u.domain ∧
    (remove_query_params u params).pathSegments = u.pathSegments ∧
    (remove_query_params u params).fragment = u.fragment := by
  have hfilter :
      ((u.query.getD []).filter fun kv => params.all fun param => param != kv.1) =
        (u.query.getD []).filter fun kv => decide (kv.1 ∉ params) := by
    apply List.filter_congr
    intro kv _
    exact all_ne_eq_not_mem kv.1 params
  refine ⟨?_, ?_, rfl, rfl, rfl, rfl⟩
  · show (Url.query { u with query := _ }).getD [] = _
    simp only [remove_query_params, hfilter]
    split
    · next h =>
      simp only [Option.getD_none]
      exact (List.isEmpty_iff.mp h).symm
    · next h => rfl
  · show Url.query { u with query := _ } = none ↔ _
    simp only [remove_query_params, hfilter]
    split
    · next h => exact iff_of_true rfl (List.isEmpty_iff.mp h)
    · next h =>
      refine iff_of_false (by simp) fun hc => h ?_
      rw [hc]
      rfl

/-- A concrete URL with a tracking parameter, for witnesses. -/
def demoQueryUrl : Url :=
  { scheme := "https", domain := some "youtu.be",
    pathSegments := some ["lSwnPoo9ZK0"],
    query := some [("si", "X"), ("t", "65")], fragment := none }

/-- C2 witness: the characterisation evaluated on a concrete URL. -/
theorem C2_witness :
    (remove_query_params demoQueryUrl ["si"]).query.getD [] = [("t", "65")] := by
  rw [(C2_remove_query_params_spec demoQueryUrl ["si"]).1]
  rfl

/-! ### C3 — cache correctness -/

/-- If the washer's cache has `(u, r)` at the most-recently-used position
and `u` passes the scheme gate, `wash` answers from the cache: it returns
`r`, issues no network request, and leaves the washer unchanged (the
promoted hit is already at the front). -/
theorem wash_cache_head (env : HttpTransport) (parse : UrlParseFn)
    (w1 : UrlWasher) (u r : Url) (tail : List (Url × Url))
    (hscheme : ¬(u.scheme ≠ "http" ∧ u.scheme ≠ "https"))
    (hent : w1.cache.entries = (u, r) :: tail) :
    UrlWasher.wash env parse w1 u = (.ok (some r), w1, []) := by
  have hget : w1.cache.get u = (some r, w1.cache) := by
    unfold LruCache.get
    rw [hent]
    split
    next hfind =>
      rw [List.find?_cons_of_pos _ (by simp)] at hfind
      exact absurd hfind (by simp)
    next e hfind =>
      rw [List.find?_cons_of_pos _ (by simp)] at hfind
      cases hfind
      rw [List.eraseP_cons_of_pos (by simp), ← hent]
  unfold UrlWasher.wash
  rw [if_neg hscheme, hget]

/-- If the first `wash` of `u` succeeds with `Some r`, the resulting washer
has `(u, r)` as the most-recently-used cache entry, and the scheme of `u`
is `http` or `https`. -/
theorem wash_success_caches (env : HttpTransport) (parse : UrlParseFn)
    (w : UrlWasher) (u r : Url) (w1 : UrlWasher) (calls : List Url)
    (h : UrlWasher.wash env parse w u = (.ok (some r), w1, calls)) :
    ¬(u.scheme ≠ "http" ∧ u.scheme ≠ "https") ∧
      ∃ tail, w1.cache.entries = (u, r) :: tail := by
  unfold UrlWasher.wash at h
  split at h
  · simp at h
  next hscheme =>
    refine ⟨hscheme, ?_⟩
    split at h
    next cached cache' heq =>
      -- cache hit: the promoted entry is at the front of `cache'`
      have h1 : cached = r := by
        have := congrArg (fun p => p.1) h
        simpa using this
      have h2 : w1 = { w with cache := cache' } := by
        have := congrArg (fun p => p.2.1) h
        simpa using this.symm
      unfold LruCache.get at heq
      split at heq
      · simp at heq
      next e hfind =>
        have he1 : e.1 = u := by
          have := List.find?_some hfind
          simpa using this
        have he2 : e.2 = cached := by
          have := congrArg (fun p => p.1) heq
          simpa using this
        have hc : cache' = { w.cache with
            entries := e :: w.cache.entries.eraseP (fun x => x.1 == u) } := by
          have := congrArg (fun p => p.2) heq
          simpa using this.symm
        refine ⟨w.cache.entries.eraseP (fun x => x.1 == u), ?_⟩
        rw [h2, hc]
        simp only
        rw [← he1, ← h1, ← he2]
    next heq =>
      split at h
      · simp at h
      split at h
      · simp at h
      next rule hrule =>
        split at h
        next laundry calls' hrun =>
          have h1 : laundry = r := by
            have := congrArg (fun p => p.1) h
            simpa using this
          have h2 : w1 = { w with cache := w.cache.put u laundry } := by
            have := congrArg (fun p => p.2.1) h
            simpa using this.symm
          refine ⟨if w.cache.capacity ≤ (w.cache.entries.filter fun e => !(e.1 == u)).length
              then (w.cache.entries.filter fun e => !(e.1 == u)).dropLast
              else w.cache.entries.filter fun e => !(e.1 == u), ?_⟩
          rw [h2, h1]
          rfl
        · simp at h

/-- C3: (1) after `wash(u)` succeeds with `Some r`, a second `wash(u)` on
the resulting washer returns `Some r` from the cache, issues no network
request, and leaves the washer state unchanged; (2) `UrlWasher::new` builds
the cache with capacity 1024; (3) inserting a new key into a full cache
evicts exactly the least-recently-used (last) entry; (4) `put` never grows
the cache beyond its capacity. -/
theorem C3_cache_correctness :
    (∀ (env : HttpTransport) (parse : UrlParseFn) (w : UrlWasher) (u r : Url)
        (w1 : UrlWasher) (calls : List Url),
        UrlWasher.wash env parse w u = (.ok (some r), w1, calls) →
        UrlWasher.wash env parse w1 u = (.ok (some r), w1, [])) ∧
    (∀ cfg : UrlWasherConfig, (UrlWasher.new cfg).cache.capacity = 1024) ∧
    (∀ (c : LruCache Url Url) (k v : Url),
        c.entries.length = c.capacity →
        c.entries.find? (fun e => e.1 == k) = none →
        (c.put k v).entries = (k, v) :: c.entries.dropLast) ∧
    (∀ (c : LruCache Url Url) (k v : Url),
        1 ≤ c.capacity → c.entries.length ≤ c.capacity →
        (c.put k v).entries.length ≤ c.capacity) := by
  refine ⟨?_, fun _ => rfl, ?_, ?_⟩
  · intro env parse w u r w1 calls h
    obtain ⟨hscheme, tail, hent⟩ := wash_success_caches env parse w u r w1 calls h
    exact wash_cache_head env parse w1 u r tail hscheme hent
  · intro c k v hfull hfind
    have hfilter : (c.entries.filter fun e => !(e.1 == k)) = c.entries := by
      rw [List.filter_eq_self]
      intro e he
      have := List.find?_eq_none.mp hfind e he
      simpa using this
    unfold LruCache.put
    rw [hfilter, if_pos (le_of_eq hfull.symm)]
  · intro c k v hcap hlen
    have hfle := List.length_filter_le (fun e => !(e.1 == k)) c.entries
    unfold LruCache.put
    simp only [List.length_cons]
    split
    next hge =>
      rw [List.length_dropLast]
      omega
    next hlt =>
      omega

/-- The washer used in the concrete witnesses: fresh cache, default
config. -/
def demoWasher0 : UrlWasher := UrlWasher.new UrlWasherConfig.default

/-- `demoQueryUrl` washed: the `si` parameter removed. -/
def demoWashed : Url := { demoQueryUrl with query := some [("t", "65")] }

/-- The washer state after washing `demoQueryUrl` once. -/
def demoWasher1 : UrlWasher :=
  (UrlWasher.wash noNet noParse demoWasher0 demoQueryUrl).2.1

/-- C3 witness: washing the same dirty URL a second time answers from the
cache with no network request. -/
theorem C3_witness :
    UrlWasher.wash noNet noParse demoWasher1 demoQueryUrl =
      (.ok (some demoWashed), demoWasher1, []) :=
  C3_cache_correctness.1 noNet noParse demoWasher0 demoQueryUrl demoWashed
    demoWasher1 [] rfl

/-! ### C4 — error atomicity of wash -/

/-- C4: if any washing program fails (only redirect resolution can fail),
`wash` propagates the error, produces no washed URL, and returns the washer
completely unchanged — in particular nothing is cached for that URL. -/
theorem C4_wash_error_atomic (env : HttpTransport) (parse : UrlParseFn)
    (w : UrlWasher) (u : Url) (e : ResolveError) (w' : UrlWasher)
    (calls : List Url)
    (h : UrlWasher.wash env parse w u = (.error e, w', calls)) :
    w' = w := by
  unfold UrlWasher.wash at h
  split at h
  · simp at h
  · split at h
    · simp at h
    · split at h
      · simp at h
      · split at h
        · simp at h
        · split at h
          · simp at h
          · have := congrArg (fun p => p.2.1) h
            simpa using this.symm

/-- A built-in redirect URL (matches the `vm.tiktok.com` rule). -/
def tiktokUrl : Url :=
  { scheme := "https", domain := some "vm.tiktok.com",
    pathSegments := some ["ZGJoJs8jb"], query := none, fragment := none }

/-- C4 witness: with no network, washing a redirect URL under the default
config fails with a transport error and the washer is returned unchanged. -/
theorem C4_witness :
    UrlWasher.wash noNet noParse demoWasher0 tiktokUrl =
        ((Except.error ResolveError.transport : Except ResolveError (Option Url)),
          demoWasher0, [tiktokUrl]) ∧
      demoWasher0 = demoWasher0 :=
  ⟨rfl, C4_wash_error_atomic noNet noParse demoWasher0 tiktokUrl
    ResolveError.transport demoWasher0 [tiktokUrl] rfl⟩

/-! ### C5 — redirect policy lookup and continuation -/

/-- C5: (1) under `Ignore`, `resolve_redirect` issues no network request
and yields the original URL marked unresolved; (2) when the matched rule's
name has no entry in `Config.redirect_policy`, executing a
`ResolveRedirection` program behaves exactly as under `Ignore`: the program
is a no-op and execution continues with the remaining programs; (3) in
every success case (resolved or left as original) execution continues with
the next program on the outcome's URL, accumulating the resolver's network
requests. -/
theorem C5_resolve_policy :
    (∀ (env : HttpTransport) (parse : UrlParseFn) (u : Url) (mi : Option Url),
        resolve_redirect env parse u RedirectWashPolicy.Ignore mi =
          (.ok (.unresolved u), [])) ∧
    (∀ (env : HttpTransport) (parse : UrlParseFn) (cfg : UrlWasherConfig)
        (name : RuleName) (ps : List WashingProgram) (u : Url),
        mapGet cfg.redirect_policy name = none →
        run_programs env parse cfg name (.ResolveRedirection :: ps) u =
          run_programs env parse cfg name ps u) ∧
    (∀ (env : HttpTransport) (parse : UrlParseFn) (cfg : UrlWasherConfig)
        (name : RuleName) (ps : List WashingProgram) (u : Url)
        (out : ResolveOutcome) (calls : List Url),
        resolve_redirect env parse u
            ((mapGet cfg.redirect_policy name).getD RedirectWashPolicy.Ignore)
            cfg.mixer_instance = (.ok out, calls) →
        run_programs env parse cfg name (.ResolveRedirection :: ps) u =
          ((run_programs env parse cfg name ps out.url).1,
            calls ++ (run_programs env parse cfg name ps out.url).2)) := by
  have hcont : ∀ (env : HttpTransport) (parse : UrlParseFn) (cfg : UrlWasherConfig)
      (name : RuleName) (ps : List WashingProgram) (u : Url)
      (out : ResolveOutcome) (calls : List Url),
      resolve_redirect env parse u
          ((mapGet cfg.redirect_policy name).getD RedirectWashPolicy.Ignore)
          cfg.mixer_instance = (.ok out, calls) →
      run_programs env parse cfg name (.ResolveRedirection :: ps) u =
        ((run_programs env parse cfg name ps out.url).1,
          calls ++ (run_programs env parse cfg name ps out.url).2) := by
    intro env parse cfg name ps u out calls h
    conv_lhs => rw [run_programs]
    dsimp only
    rw [h]
  refine ⟨fun _ _ _ _ => rfl, ?_, hcont⟩
  intro env parse cfg name ps u h
  have h2 := hcont env parse cfg name ps u (.unresolved u) [] (by rw [h]; rfl)
  rw [h2]
  simp only [List.nil_append, ResolveOutcome.url]

/-- A config with no redirect-policy entries, for witnesses. -/
def emptyPolicyConfig : UrlWasherConfig :=
  { mixer_instance := none, redirect_policy := [] }

/-- C5 witness: with a rule name absent from the policy map, a
`ResolveRedirection` program is skipped (default `Ignore`), and execution
continues with the remaining programs. -/
theorem C5_witness :
    run_programs noNet noParse emptyPolicyConfig "vm.tiktok.com"
        [WashingProgram.ResolveRedirection, WashingProgram.RemoveAllParams]
        demoQueryUrl =
      run_programs noNet noParse emptyPolicyConfig "vm.tiktok.com"
        [WashingProgram.RemoveAllParams] demoQueryUrl :=
  C5_resolve_policy.2.1 noNet noParse emptyPolicyConfig "vm.tiktok.com"
    [WashingProgram.RemoveAllParams] demoQueryUrl rfl

/-! ### C8 — redirect resolution via the mixer -/

/-- C8: under `ViaMixer`, resolution fails (`MixerNotConfigured`) without
any request when no mixer instance is configured; otherwise exactly one GET
is issued, to the mixer instance with its path set to `wash` and the input
URL passed as the `url` query parameter; a transport error, a
non-success status and an unparsable body each fail with the corresponding
error, and otherwise the parsed body is returned as the resolved target. -/
theorem C8_via_mixer_resolution :
    (∀ (env : HttpTransport) (parse : UrlParseFn) (u : Url),
        resolve_redirect env parse u RedirectWashPolicy.ViaMixer none =
          (.error .mixerNotConfigured, [])) ∧
    (∀ (mixer u : Url),
        (mixer_wash_url mixer u).pathSegments = some ["wash"] ∧
        (mixer_wash_url mixer u).query =
          some (mixer.query.getD [] ++ [("url", u.toString)]) ∧
        (mixer_wash_url mixer u).scheme = mixer.scheme ∧
        (mixer_wash_url mixer u).domain = mixer.domain) ∧
    (∀ (env : HttpTransport) (parse : UrlParseFn) (u mixer : Url),
        (resolve_redirect env parse u RedirectWashPolicy.ViaMixer (some mixer)).2 =
          [mixer_wash_url mixer u]) ∧
    (∀ (env : HttpTransport) (parse : UrlParseFn) (u mixer : Url),
        env (mixer_wash_url mixer u) = none →
        (resolve_redirect env parse u RedirectWashPolicy.ViaMixer (some mixer)).1 =
          .error .mixerTransport) ∧
    (∀ (env : HttpTransport) (parse : UrlParseFn) (u mixer : Url)
        (resp : HttpGetResult),
        env (mixer_wash_url mixer u) = some resp →
        resp.statusSuccess = false →
        (resolve_redirect env parse u RedirectWashPolicy.ViaMixer (some mixer)).1 =
          .error .mixerBadStatus) ∧
    (∀ (env : HttpTransport) (parse : UrlParseFn) (u mixer : Url)
        (resp : HttpGetResult),
        env (mixer_wash_url mixer u) = some resp →
        resp.statusSuccess = true →
        parse resp.body = none →
        (resolve_redirect env parse u RedirectWashPolicy.ViaMixer (some mixer)).1 =
          .error .mixerBodyParse) ∧
    (∀ (env : HttpTransport) (parse : UrlParseFn) (u mixer target : Url)
        (resp : HttpGetResult),
        env (mixer_wash_url mixer u) = some resp →
        resp.statusSuccess = true →
        parse resp.body = some target →
        (resolve_redirect env parse u RedirectWashPolicy.ViaMixer (some mixer)).1 =
          .ok (.resolved target)) := by
  refine ⟨fun _ _ _ => rfl, fun _ _ => ⟨rfl, rfl, rfl, rfl⟩, ?_, ?_, ?_, ?_, ?_⟩
  · intro env parse u mixer
    cases henv : env (mixer_wash_url mixer u) with
    | none =>
      unfold resolve_redirect
      dsimp only
      rw [henv]
    | some resp =>
      unfold resolve_redirect
      dsimp only
      rw [henv]
      dsimp only
      cases hs : resp.statusSuccess with
      | false => rfl
      | true => cases hp : parse resp.body <;> rfl
  · intro env parse u mixer henv
    unfold resolve_redirect
    dsimp only
    rw [henv]
  · intro env parse u mixer resp henv hs
    unfold resolve_redirect
    dsimp only
    rw [henv]
    dsimp only
    rw [hs]
    rfl
  · intro env parse u mixer resp henv hs hparse
    unfold resolve_redirect
    dsimp only
    rw [henv]
    dsimp only
    rw [hs]
    simp [hparse]
  · intro env parse u mixer target resp henv hs hparse
    unfold resolve_redirect
    dsimp only
    rw [henv]
    dsimp only
    rw [hs]
    simp [hparse]

/-- A concrete mixer instance URL. -/
def demoMixer : Url :=
  { scheme := "https", domain := some "urldebloater.makin.cc",
    pathSegments := some [""], query := none, fragment := none }

/-- A concrete resolved target URL. -/
def demoTarget : Url :=
  { scheme := "https", domain := some "www.tiktok.com",
    pathSegments := some ["@i0ki.clips", "video", "7297742182851611936"],
    query := none, fragment := none }

/-- A transport oracle that answers the mixer wash request for
`tiktokUrl` with body `"T"`. -/
def mixEnv : HttpTransport := fun u =>
  if u = mixer_wash_url demoMixer tiktokUrl then
    some { statusSuccess := true, location := none, body := "T" }
  else none

/-- A parse oracle mapping `"T"` to the demo target. -/
def mixParse : UrlParseFn := fun s =>
  if s = "T" then some demoTarget else none

/-- C8 witness: the success case of mixer resolution at concrete inputs. -/
theorem C8_witness :
    (resolve_redirect mixEnv mixParse tiktokUrl RedirectWashPolicy.ViaMixer
        (some demoMixer)).1 = .ok (.resolved demoTarget) :=
  C8_via_mixer_resolution.2.2.2.2.2.2 mixEnv mixParse tiktokUrl demoMixer
    demoTarget { statusSuccess := true, location := none, body := "T" }
    rfl rfl rfl

/-! ### C10 — default config keyed by domains, wash looks up by name -/

/-- C10: the default config's redirect-policy map is keyed by the
*domains* of the rules containing a `ResolveRedirection` program (each
mapped to `Locally`), not by rule name; in the built-in rule set every
redirect rule's name happens to equal one of its domains, so the
by-name lookup done by `wash` finds `Locally` for exactly
`vm.tiktok.com` and `on.soundcloud.com`, and any name outside the
domain-keyed map silently defaults to `Ignore`. -/
theorem C10_default_policy_by_domain :
    (UrlWasherConfig.default.redirect_policy =
      [("vm.tiktok.com", RedirectWashPolicy.Locally),
       ("on.soundcloud.com", RedirectWashPolicy.Locally)]) ∧
    (mapGet UrlWasherConfig.default.redirect_policy "vm.tiktok.com" =
      some RedirectWashPolicy.Locally) ∧
    (mapGet UrlWasherConfig.default.redirect_policy "on.soundcloud.com" =
      some RedirectWashPolicy.Locally) ∧
    (mapGet UrlWasherConfig.default.redirect_policy "youtu.be" = none) ∧
    (mapGet UrlWasherConfig.default.redirect_policy
      "youtube.com & music.youtube.com" = none) ∧
    (mapGet UrlWasherConfig.default.redirect_policy "twitter.com" = none) ∧
    (∀ rule ∈ rule_set,
        rule.washing_programs.contains WashingProgram.ResolveRedirection = true →
        rule.name ∈ rule.domains) ∧
    (∀ k : RuleName,
        k ∉ UrlWasherConfig.default.redirect_policy.map Prod.fst →
        (mapGet UrlWasherConfig.default.redirect_policy k).getD
            RedirectWashPolicy.Ignore = RedirectWashPolicy.Ignore) := by
  refine ⟨rfl, rfl, rfl, rfl, rfl, rfl, by decide, ?_⟩
  intro k hk
  have hfind : UrlWasherConfig.default.redirect_policy.find?
      (fun e => e.1 == k) = none := by
    rw [List.find?_eq_none]
    intro e he
    simp only [beq_iff_eq]
    intro heq
    exact hk (heq ▸ List.mem_map_of_mem Prod.fst he)
  unfold mapGet
  rw [hfind]
  rfl

/-- C10 witness: a rule name absent from the domain-keyed map defaults to
`Ignore`. -/
theorem C10_witness :
    (mapGet UrlWasherConfig.default.redirect_policy "youtu.be").getD
        RedirectWashPolicy.Ignore = RedirectWashPolicy.Ignore :=
  C10_default_policy_by_domain.2.2.2.2.2.2.2 "youtu.be" (by decide)

/-! ### Helper lemmas for the text washer -/

/-- Reassembly distributes over the head character of the first token. -/
theorem reassemble_cons_head (c : Char) (t : List Char)
    (ts : List (List Char)) (seps : List Char) :
    reassemble ((c :: t) :: ts) seps = c :: reassemble (t :: ts) seps := by
  cases seps <;> rfl

/-- Splitting and reassembling (with no change to the tokens) reproduces
the input text exactly: every separator character returns to its original
position. -/
theorem splitText_reassemble (l : List Char) :
    reassemble ((splitText l).1 :: (splitText l).2.1) (splitText l).2.2 = l := by
  induction l with
  | nil => rfl
  | cons c rest ih =>
    by_cases hw : c.isWhitespace
    · simp only [splitText, hw, if_true]
      rw [reassemble]
      simpa using ih
    · simp only [splitText, hw, Bool.false_eq_true, if_false]
      rw [reassemble_cons_head]
      exact congrArg (c :: ·) ih

/-- A token that does not start with `http://` or `https://`, or does not
parse as a URL, passes through `washToken` unchanged. -/
theorem washToken_keep (env : HttpTransport) (parse : UrlParseFn)
    (w : UrlWasher) (part : List Char)
    (h : ("http://".data.isPrefixOf part || "https://".data.isPrefixOf part) = false ∨
      parse (String.mk part) = none) :
    (washToken env parse w part).1 = part := by
  unfold washToken
  rcases h with h | h
  · simp only [Bool.or_eq_false_iff] at h
    rw [if_pos (by rw [h.1, h.2]; rfl)]
  · by_cases hb : (!("http://".data.isPrefixOf part) &&
        !("https://".data.isPrefixOf part)) = true
    · rw [if_pos hb]
    · rw [if_neg hb]
      rw [h]

/-- `washTokens` washes tokens pointwise: it preserves the token count. -/
theorem washTokens_length (env : HttpTransport) (parse : UrlParseFn) :
    ∀ (ts : List (List Char)) (w : UrlWasher),
      (washTokens env parse w ts).1.length = ts.length
  | [], _ => rfl
  | _ :: ts, w => by
    unfold washTokens
    simp only [List.length_cons]
    rw [washTokens_length env parse ts]

/-- Tokens that fail the scheme test or do not parse are unchanged at their
position in the `washTokens` output, whatever the threaded washer state. -/
theorem washTokens_keep (env : HttpTransport) (parse : UrlParseFn) :
    ∀ (ts : List (List Char)) (w : UrlWasher) (i : Nat) (t : List Char),
      ts[i]? = some t →
      (("http://".data.isPrefixOf t || "https://".data.isPrefixOf t) = false ∨
        parse (String.mk t) = none) →
      (washTokens env parse w ts).1[i]? = some t
  | [], _, i, t => by simp
  | t0 :: ts, w, i, t => by
    intro hi hkeep
    unfold washTokens
    cases i with
    | zero =>
      simp only [List.getElem?_cons_zero, Option.some.injEq] at hi
      simp only [List.getElem?_cons_zero, Option.some.injEq]
      rw [hi]
      exact washToken_keep env parse w t hkeep
    | succ n =>
      simp only [List.getElem?_cons_succ] at hi
      simp only [List.getElem?_cons_succ]
      exact washTokens_keep env parse ts _ n t hi hkeep

/-- When every token is kept, `washTokens` is the identity on the token
list. -/
theorem washTokens_all_keep (env : HttpTransport) (parse : UrlParseFn) :
    ∀ (ts : List (List Char)) (w : UrlWasher),
      (∀ t ∈ ts,
        ("http://".data.isPrefixOf t || "https://".data.isPrefixOf t) = false ∨
          parse (String.mk t) = none) →
      (washTokens env parse w ts).1 = ts
  | [], _, _ => rfl
  | t0 :: ts, w, h => by
    unfold washTokens
    rw [washToken_keep env parse w t0 (h t0 (by simp)),
      washTokens_all_keep env parse ts _ fun t ht => h t (by simp [ht])]

/-! ### C6 — text structure preservation -/

/-- C6: `TextWasher::wash` preserves text structure.  (1) Splitting and
reassembling reinserts every original whitespace separator character at its
original position; (2) washing preserves the token count, so reassembly
pairs each washed token with its original separator; (3) every token that
does not start with `http://`/`https://`, or does not parse as a URL,
appears unchanged at its original position; (4) in particular, when no
token is a washable URL the output equals the input exactly. -/
theorem C6_text_wash_structure :
    (∀ text : List Char,
        reassemble ((splitText text).1 :: (splitText text).2.1)
          (splitText text).2.2 = text) ∧
    (∀ (env : HttpTransport) (parse : UrlParseFn) (w : UrlWasher)
        (ts : List (List Char)),
        (washTokens env parse w ts).1.length = ts.length) ∧
    (∀ (env : HttpTransport) (parse : UrlParseFn) (w : UrlWasher)
        (ts : List (List Char)) (i : Nat) (t : List Char),
        ts[i]? = some t →
        (("http://".data.isPrefixOf t || "https://".data.isPrefixOf t) = false ∨
          parse (String.mk t) = none) →
        (washTokens env parse w ts).1[i]? = some t) ∧
    (∀ (env : HttpTransport) (parse : UrlParseFn) (tw : TextWasher)
        (text : List Char),
        (∀ t ∈ (splitText text).1 :: (splitText text).2.1,
          ("http://".data.isPrefixOf t || "https://".data.isPrefixOf t) = false ∨
            parse (String.mk t) = none) →
        (TextWasher.wash env parse tw text).1 = text) := by
  refine ⟨splitText_reassemble, fun env parse w ts => washTokens_length env parse ts w,
    fun env parse w ts => washTokens_keep env parse ts w, ?_⟩
  intro env parse tw text h
  unfold TextWasher.wash
  rw [washTokens_all_keep env parse _ tw.url_washer h]
  exact splitText_reassemble text

/-- C6 witness: a text with no URL-shaped token is returned verbatim
(mixed separators included). -/
theorem C6_witness :
    (TextWasher.wash noNet noParse { url_washer := demoWasher0 }
        "hello  world\nsecond\tline".data).1 =
      "hello  world\nsecond\tline".data :=
  C6_text_wash_structure.2.2.2 noNet noParse { url_washer := demoWasher0 }
    "hello  world\nsecond\tline".data (fun _ _ => Or.inr rfl)

/-! ### C7 — per-token failures degrade to passthrough -/

/-- C7: `TextWasher::wash` is total by construction (it returns a string
for every input), and per-token failures degrade to passthrough: for a
token that parses as a URL, if the underlying `UrlWasher::wash` returns
"no match" (`none`) or an error, the original token is kept unchanged. -/
theorem C7_token_passthrough :
    (∀ (env : HttpTransport) (parse : UrlParseFn) (w : UrlWasher)
        (part : List Char) (url : Url),
        parse (String.mk part) = some url →
        (UrlWasher.wash env parse w url).1 = .ok none →
        (washToken env parse w part).1 = part) ∧
    (∀ (env : HttpTransport) (parse : UrlParseFn) (w : UrlWasher)
        (part : List Char) (url : Url) (e : ResolveError),
        parse (String.mk part) = some url →
        (UrlWasher.wash env parse w url).1 = .error e →
        (washToken env parse w part).1 = part) := by
  constructor
  · intro env parse w part url hparse hwash
    unfold washToken
    by_cases hb : (!("http://".data.isPrefixOf part) &&
        !("https://".data.isPrefixOf part)) = true
    · rw [if_pos hb]
    · rw [if_neg hb]
      rw [hparse]
      dsimp only
      rcases hW : UrlWasher.wash env parse w url with ⟨res, w2, calls⟩
      rw [hW] at hwash
      dsimp only at hwash
      rw [hwash]
  · intro env parse w part url e hparse hwash
    unfold washToken
    by_cases hb : (!("http://".data.isPrefixOf part) &&
        !("https://".data.isPrefixOf part)) = true
    · rw [if_pos hb]
    · rw [if_neg hb]
      rw [hparse]
      dsimp only
      rcases hW : UrlWasher.wash env parse w url with ⟨res, w2, calls⟩
      rw [hW] at hwash
      dsimp only at hwash
      rw [hwash]

/-- A URL matching no rule, as the model `Url::parse` of its literal text. -/
def exampleUrl : Url :=
  { scheme := "https", domain := some "example.com",
    pathSegments := some ["unrelated"], query := some [("x", "1")],
    fragment := none }

/-- A parse oracle recognising exactly the example URL's text. -/
def exampleParse : UrlParseFn := fun s =>
  if s = "https://example.com/unrelated?x=1" then some exampleUrl else none

/-- C7 witness: a URL-shaped token whose wash reports "no match" is kept
unchanged. -/
theorem C7_witness :
    (washToken noNet exampleParse demoWasher0
        "https://example.com/unrelated?x=1".data).1 =
      "https://example.com/unrelated?x=1".data :=
  C7_token_passthrough.1 noNet exampleParse demoWasher0
    "https://example.com/unrelated?x=1".data exampleUrl rfl rfl

/-! ### Helper development for C9: program runs without effective resolution -/

/-- The pure effect of a program list on a URL when every
`ResolveRedirection` runs under the effective policy `Ignore` (the
resolver returns the URL unchanged). -/
def applyProgs : List WashingProgram → Url → Url
  | [], u => u
  | .ResolveRedirection :: ps, u => applyProgs ps u
  | .RemoveSomeParams params :: ps, u => applyProgs ps (remove_query_params u params)
  | .RemoveAllParams :: ps, u => applyProgs ps { u with query := none }

/-- The same effect restricted to the query component (the only component
the non-resolving programs touch). -/
def applyQuery : List WashingProgram →
    Option (List (String × String)) → Option (List (String × String))
  | [], q => q
  | .ResolveRedirection :: ps, q => applyQuery ps q
  | .RemoveSomeParams params :: ps, q =>
    applyQuery ps
      (if ((q.getD []).filter fun kv => params.all fun param => param != kv.1).isEmpty
       then none
       else some ((q.getD []).filter fun kv => params.all fun param => param != kv.1))
  | .RemoveAllParams :: ps, _ => applyQuery ps none

/-- Does the list contain a `RemoveSomeParams` program? -/
def hasRemoveSome (ps : List WashingProgram) : Bool :=
  ps.any fun p =>
    match p with
    | .RemoveSomeParams _ => true
    | _ => false

/-- The conjunction of all `RemoveSomeParams` filters in the list. -/
def keepPred (ps : List WashingProgram) (kv : String × String) : Bool :=
  ps.all fun p =>
    match p with
    | .RemoveSomeParams params => params.all fun param => param != kv.1
    | _ => true

/-- `applyProgs` only rewrites the query component. -/
theorem applyProgs_eq (ps : List WashingProgram) :
    ∀ u : Url, applyProgs ps u = { u with query := applyQuery ps u.query } := by
  induction ps with
  | nil => intro u; rfl
  | cons p ps ih =>
    intro u
    cases p with
    | ResolveRedirection => exact ih u
    | RemoveSomeParams params =>
      rw [applyProgs, ih (remove_query_params u params)]
      rfl
    | RemoveAllParams =>
      rw [applyProgs, ih { u with query := none }]
      rfl

/-- An absent query stays absent under every program list. -/
theorem applyQuery_none (ps : List WashingProgram) : applyQuery ps none = none := by
  induction ps with
  | nil => rfl
  | cons p ps ih =>
    cases p with
    | ResolveRedirection => exact ih
    | RemoveSomeParams params => exact ih
    | RemoveAllParams => exact ih

/-- A `RemoveAllParams` anywhere in the list forces an absent query. -/
theorem applyQuery_removeAll (ps : List WashingProgram)
    (h : WashingProgram.RemoveAllParams ∈ ps) :
    ∀ q, applyQuery ps q = none := by
  induction ps with
  | nil => cases h
  | cons p ps ih =>
    intro q
    cases p with
    | ResolveRedirection =>
      exact ih (by simpa using h) q
    | RemoveSomeParams params =>
      exact ih (by simpa using h) _
    | RemoveAllParams =>
      exact applyQuery_none ps

/-- With no `RemoveSomeParams` in the list, the keep predicate is
vacuously true. -/
theorem keepPred_of_no_removeSome (ps : List WashingProgram)
    (h : hasRemoveSome ps = false) (kv : String × String) :
    keepPred ps kv = true := by
  induction ps with
  | nil => rfl
  | cons p ps ih =>
    rw [hasRemoveSome, List.any_cons, Bool.or_eq_false_iff] at h
    rw [keepPred, List.all_cons]
    have h2 : hasRemoveSome ps = false := h.2
    have hall := ih h2
    rw [keepPred] at hall
    cases p with
    | ResolveRedirection =>
      simp only [Bool.and_eq_true]
      exact ⟨trivial, hall⟩
    | RemoveSomeParams params => exact absurd h.1 (by simp)
    | RemoveAllParams =>
      simp only [Bool.and_eq_true]
      exact ⟨trivial, hall⟩

/-- The normalised query (`none` instead of an empty list) still reads
back as the same pair list. -/
theorem normQuery_getD (l : List (String × String)) :
    (if l.isEmpty then none else some l).getD [] = l := by
  split
  · next h => rw [Option.getD_none, List.isEmpty_iff.mp h]
  · next h => rfl

/-- With no `RemoveAllParams` in the list, `applyQuery` is the filter by
the conjunction of all `RemoveSomeParams` filters (normalised to `none`
when empty), or the identity when there is no `RemoveSomeParams` at all. -/
theorem applyQuery_char (ps : List WashingProgram)
    (hall : WashingProgram.RemoveAllParams ∉ ps) :
    ∀ q, applyQuery ps q =
      if hasRemoveSome ps then
        (if ((q.getD []).filter (keepPred ps)).isEmpty then none
         else some ((q.getD []).filter (keepPred ps)))
      else q := by
  induction ps with
  | nil => intro q; rfl
  | cons p ps ih =>
    have hall' : WashingProgram.RemoveAllParams ∉ ps := fun hm => hall (List.mem_cons_of_mem p hm)
    intro q
    cases p with
    | ResolveRedirection =>
      rw [applyQuery, ih hall' q]
      have h1 : hasRemoveSome (.ResolveRedirection :: ps) = hasRemoveSome ps := by
        rw [hasRemoveSome, List.any_cons]
        rfl
      have h2 : (fun kv => keepPred (.ResolveRedirection :: ps) kv) =
          fun kv => keepPred ps kv := by
        funext kv
        rw [keepPred, List.all_cons]
        rfl
      rw [h1]
      rw [show keepPred (.ResolveRedirection :: ps) = keepPred ps from h2]
    | RemoveAllParams => exact absurd (List.mem_cons_self _ _) hall
    | RemoveSomeParams params =>
      rw [applyQuery, ih hall']
      have hhead : hasRemoveSome (.RemoveSomeParams params :: ps) = true := by
        rw [hasRemoveSome, List.any_cons]
        rfl
      rw [hhead, if_pos rfl]
      have hgetD :
          ((if ((q.getD []).filter fun kv => params.all fun param => param != kv.1).isEmpty
            then none
            else some ((q.getD []).filter fun kv => params.all fun param => param != kv.1)).getD [])
            = (q.getD []).filter fun kv => params.all fun param => param != kv.1 :=
        normQuery_getD _
      have hkp : ∀ l : List (String × String),
          l.filter (keepPred (.RemoveSomeParams params :: ps)) =
            (l.filter fun kv => params.all fun param => param != kv.1).filter (keepPred ps) := by
        intro l
        rw [List.filter_filter]
        apply List.filter_congr
        intro kv _
        rw [keepPred, List.all_cons, keepPred]
        exact Bool.and_comm _ _
      by_cases hsome : hasRemoveSome ps = true
      · rw [if_pos hsome, hgetD, hkp]
      · rw [if_neg hsome]
        rw [hkp]
        have : ∀ l : List (String × String), l.filter (keepPred ps) = l := by
          intro l
          apply List.filter_eq_self.mpr
          intro a _
          exact keepPred_of_no_removeSome ps (Bool.not_eq_true _ ▸ hsome) a
        rw [this]

/-- `applyQuery` is idempotent. -/
theorem applyQuery_idem (ps : List WashingProgram) (q : Option (List (String × String))) :
    applyQuery ps (applyQuery ps q) = applyQuery ps q := by
  by_cases hall : WashingProgram.RemoveAllParams ∈ ps
  · rw [applyQuery_removeAll ps hall q, applyQuery_none]
  · rw [applyQuery_char ps hall q, applyQuery_char ps hall]
    by_cases hsome : hasRemoveSome ps = true
    · rw [if_pos hsome, if_pos hsome, normQuery_getD, List.filter_filter]
      have : ∀ l : List (String × String),
          (l.filter fun a => keepPred ps a && keepPred ps a) = l.filter (keepPred ps) := by
        intro l
        apply List.filter_congr
        intro a _
        exact Bool.and_self _
      rw [this]
    · rw [if_neg hsome, if_neg hsome]

/-- `applyProgs` leaves scheme, domain, path and fragment unchanged. -/
theorem applyProgs_fields (ps : List WashingProgram) (u : Url) :
    (applyProgs ps u).scheme = u.scheme ∧
      (applyProgs ps u).domain = u.domain ∧
      (applyProgs ps u).pathSegments = u.pathSegments ∧
      (applyProgs ps u).fragment = u.fragment := by
  rw [applyProgs_eq]
  exact ⟨rfl, rfl, rfl, rfl⟩

/-- `applyProgs` is idempotent. -/
theorem applyProgs_idem (ps : List WashingProgram) (u : Url) :
    applyProgs ps (applyProgs ps u) = applyProgs ps u := by
  rw [applyProgs_eq ps u, applyProgs_eq ps { u with query := applyQuery ps u.query }]
  show ({ u with query := applyQuery ps (applyQuery ps u.query) } : Url) = _
  rw [applyQuery_idem]

/-- When the rule's effective policy is `Ignore` (no entry or an explicit
`Ignore`), running the programs never touches the network and computes
exactly `applyProgs`. -/
theorem run_programs_ignore (env : HttpTransport) (parse : UrlParseFn)
    (cfg : UrlWasherConfig) (name : RuleName)
    (hpol : mapGet cfg.redirect_policy name = none ∨
      mapGet cfg.redirect_policy name = some RedirectWashPolicy.Ignore) :
    ∀ (ps : List WashingProgram) (u : Url),
      run_programs env parse cfg name ps u = (.ok (applyProgs ps u), []) := by
  have hpol' : (mapGet cfg.redirect_policy name).getD RedirectWashPolicy.Ignore =
      RedirectWashPolicy.Ignore := by
    rcases hpol with h | h <;> rw [h] <;> rfl
  intro ps
  induction ps with
  | nil => intro u; rfl
  | cons p ps ih =>
    intro u
    cases p with
    | ResolveRedirection =>
      conv_lhs => rw [run_programs]
      dsimp only
      rw [hpol']
      rw [show resolve_redirect env parse u RedirectWashPolicy.Ignore cfg.mixer_instance =
        (.ok (.unresolved u), []) from rfl]
      dsimp only [ResolveOutcome.url]
      rw [ih u]
      rfl
    | RemoveSomeParams params =>
      conv_lhs => rw [run_programs]
      exact ih _
    | RemoveAllParams =>
      conv_lhs => rw [run_programs]
      exact ih _

/-- Inserting into an empty cache yields the singleton entry list. -/
theorem put_empty (c : LruCache Url Url) (k v : Url)
    (h : c.entries = []) : (c.put k v).entries = [(k, v)] := by
  unfold LruCache.put
  rw [h]
  dsimp only
  split <;> rfl

/-- `wash` on a cache miss computes the rule lookup and program run. -/
theorem wash_miss_eq (env : HttpTransport) (parse : UrlParseFn)
    (w : UrlWasher) (u : Url)
    (hscheme : ¬(u.scheme ≠ "http" ∧ u.scheme ≠ "https"))
    (hmiss : w.cache.entries.find? (fun e => e.1 == u) = none) :
    UrlWasher.wash env parse w u =
      match u.domain with
      | none => (.ok none, w, [])
      | some domain =>
        match rule_set.find?
            (fun rule => rule.matches_domain domain && rule.matches_path u) with
        | none => (.ok none, w, [])
        | some matching_rule =>
          match run_programs env parse w.config matching_rule.name
              matching_rule.washing_programs u with
          | (.ok laundry, calls) =>
            (.ok (some laundry), { w with cache := w.cache.put u laundry }, calls)
          | (.error e, calls) => (.error e, w, calls) := by
  unfold UrlWasher.wash
  rw [if_neg hscheme]
  unfold LruCache.get
  rw [hmiss]

/-- The first-match rule lookup depends only on the URL's path segments
(given the domain), so two URLs with equal paths select the same rule. -/
theorem find_rule_congr (d : String) (u v : Url)
    (hp : u.pathSegments = v.pathSegments) :
    rule_set.find? (fun rule => rule.matches_domain d && rule.matches_path u) =
      rule_set.find? (fun rule => rule.matches_domain d && rule.matches_path v) := by
  have hfun : (fun rule : DirtyUrlRule =>
      rule.matches_domain d && rule.matches_path u) =
      fun rule => rule.matches_domain d && rule.matches_path v := by
    funext rule
    unfold DirtyUrlRule.matches_path
    rw [hp]
  rw [hfun]

/-- Deconstructing a successful first wash on a fresh (empty-cache)
washer: it passed the scheme gate, extracted a domain, selected a rule by
first match, ran its programs successfully, and cached the result. -/
theorem wash_first_shape (env : HttpTransport) (parse : UrlParseFn)
    (w : UrlWasher) (u r : Url) (w1 : UrlWasher) (calls : List Url)
    (hempty : w.cache.entries = [])
    (h : UrlWasher.wash env parse w u = (.ok (some r), w1, calls)) :
    ∃ d rl, u.domain = some d ∧
      rule_set.find? (fun rule => rule.matches_domain d && rule.matches_path u) =
        some rl ∧
      run_programs env parse w.config rl.name rl.washing_programs u =
        (.ok r, calls) ∧
      w1 = { w with cache := w.cache.put u r } ∧
      ¬(u.scheme ≠ "http" ∧ u.scheme ≠ "https") := by
  unfold UrlWasher.wash at h
  split at h
  · simp at h
  next hscheme =>
    split at h
    next cached cache' heq =>
      unfold LruCache.get at heq
      rw [hempty] at heq
      simp at heq
    next heq =>
      split at h
      · simp at h
      next d hdom =>
        split at h
        · simp at h
        next rl hrule =>
          split at h
          next laundry calls' hrun =>
            have h1 : laundry = r := by
              have := congrArg (fun p => p.1) h
              simpa using this
            have h2 : calls' = calls := by
              have := congrArg (fun p => p.2.2) h
              simpa using this
            have h3 : w1 = { w with cache := w.cache.put u laundry } := by
              have := congrArg (fun p => p.2.1) h
              simpa using this.symm
            exact ⟨d, rl, hdom, hrule, by rw [← h1, ← h2]; exact hrun,
              by rw [h3, h1], hscheme⟩
          · simp at h

/-! ### C9 — idempotence of washing -/

/-- A short vm.tiktok.com URL, first half of a redirect loop. -/
def uA : Url :=
  { scheme := "https", domain := some "vm.tiktok.com",
    pathSegments := some ["a"], query := none, fragment := none }

/-- A short vm.tiktok.com URL, second half of a redirect loop. -/
def uB : Url :=
  { scheme := "https", domain := some "vm.tiktok.com",
    pathSegments := some ["b"], query := none, fragment := none }

/-- A transport oracle realising a redirect 2-cycle between `uA` and
`uB`. -/
def loopEnv : HttpTransport := fun u =>
  if u = uA then some { statusSuccess := true, location := some "B", body := "" }
  else if u = uB then some { statusSuccess := true, location := some "A", body := "" }
  else none

/-- The parse oracle for the loop's `Location` headers. -/
def loopParse : UrlParseFn := fun s =>
  if s = "A" then some uA else if s = "B" then some uB else none

/-- C9 counterexample: under the default config the `vm.tiktok.com` rule
resolves redirects with policy `Locally`, so washing re-consults the
resolver; with a redirect loop, washing the washed URL `uB` returns
`Some uA`, which is neither the same washed URL (`uA ≠ uB`) nor "no
match" — washing is not a stable fixed point for every URL under the
rules currently defined. -/
theorem C9_counterexample :
    (UrlWasher.wash loopEnv loopParse demoWasher0 uA).1 = .ok (some uB) ∧
    (UrlWasher.wash loopEnv loopParse
        (UrlWasher.wash loopEnv loopParse demoWasher0 uA).2.1 uB).1 =
      .ok (some uA) ∧
    uA ≠ uB ∧
    (Except.ok (some uA) : Except ResolveError (Option Url)) ≠ .ok none :=
  ⟨rfl, rfl, by decide, by simp⟩

/-- C9 (amended): washing is a stable fixed point whenever no effective
redirect resolution takes place: starting from a fresh (empty-cache)
washer whose config gives every rule the effective policy `Ignore` (no
entry, or an explicit `Ignore`), if `wash(u)` succeeds with `Some r`, then
washing `r` on the resulting washer returns `Some r` again.  (With a
`Locally`/`ViaMixer` policy a rewash re-consults the resolver and may
return a different URL, as the counterexample shows.) -/
theorem C9_wash_idempotent (env : HttpTransport) (parse : UrlParseFn)
    (w : UrlWasher) (u r : Url) (w1 : UrlWasher) (calls : List Url)
    (hempty : w.cache.entries = [])
    (hIgn : ∀ rl ∈ rule_set,
      mapGet w.config.redirect_policy rl.name = none ∨
        mapGet w.config.redirect_policy rl.name = some RedirectWashPolicy.Ignore)
    (hwash : UrlWasher.wash env parse w u = (.ok (some r), w1, calls)) :
    (UrlWasher.wash env parse w1 r).1 = .ok (some r) := by
  obtain ⟨d, rl, hdom, hfind, hrun, hw1, hscheme⟩ :=
    wash_first_shape env parse w u r w1 calls hempty hwash
  have hpol := hIgn rl (List.mem_of_find?_eq_some hfind)
  have hr : applyProgs rl.washing_programs u = r := by
    have hshape := run_programs_ignore env parse w.config rl.name hpol
      rl.washing_programs u
    rw [hshape] at hrun
    have := congrArg (fun p => p.1) hrun
    simpa using this
  have hfields := applyProgs_fields rl.washing_programs u
  have hrs : r.scheme = u.scheme := by rw [← hr]; exact hfields.1
  have hrd : r.domain = u.domain := by rw [← hr]; exact hfields.2.1
  have hrp : r.pathSegments = u.pathSegments := by rw [← hr]; exact hfields.2.2.1
  have hscheme2 : ¬(r.scheme ≠ "http" ∧ r.scheme ≠ "https") := by
    rw [hrs]
    exact hscheme
  have hents : w1.cache.entries = [(u, r)] := by
    rw [hw1]
    exact put_empty w.cache u r hempty
  by_cases hur : u = r
  · have hhead := wash_cache_head env parse w1 r r [] hscheme2
      (by rw [hents, hur])
    rw [hhead]
  · have hmiss : w1.cache.entries.find? (fun e => e.1 == r) = none := by
      rw [hents]
      rw [List.find?_cons_of_neg _ (by simp [hur])]
      rfl
    rw [wash_miss_eq env parse w1 r hscheme2 hmiss]
    rw [show r.domain = some d from by rw [hrd]; exact hdom]
    dsimp only
    rw [find_rule_congr d r u hrp, hfind]
    dsimp only
    have hcfg : w1.config = w.config := by rw [hw1]
    rw [hcfg]
    rw [run_programs_ignore env parse w.config rl.name hpol rl.washing_programs r]
    dsimp only
    rw [show applyProgs rl.washing_programs r = r from by
      rw [← hr, applyProgs_idem]]

/-- C9 witness: with an all-`Ignore` config and a fresh washer, washing
the washed `youtu.be` URL returns it unchanged. -/
theorem C9_witness :
    (UrlWasher.wash noNet noParse
        (UrlWasher.wash noNet noParse (UrlWasher.new emptyPolicyConfig)
          demoQueryUrl).2.1
        demoWashed).1 = .ok (some demoWashed) :=
  C9_wash_idempotent noNet noParse (UrlWasher.new emptyPolicyConfig)
    demoQueryUrl demoWashed
    (UrlWasher.wash noNet noParse (UrlWasher.new emptyPolicyConfig)
      demoQueryUrl).2.1
    [] rfl (fun _ _ => Or.inl rfl) rfl
